import Mathlib

/-!
Verification of the data-race-test ThreadSanitizer runtime.

This file is a shallow embedding in Lean 4 of the parts of the repository
that the theorems below are about: the suppression/ignore-file parser
(tsan/ignore.cc), the tool exit logic (tsan/ts_valgrind.cc), the v2 thread
registry and range-access decomposition (v2/tsan/tsan_rtl_thread.cc), the
thread-leak finalizer, and the trunk sync-variable table
(trunk/v2/tsan/tsan_sync.cc).  C++ strings are embedded as `List Char`,
machine integers as `Nat`/`Int`, and fatal CHECK failures / Die() as
`Except`/`Option` error results.
-/

set_option maxHeartbeats 1000000

namespace DRT

/-! ## Suppression / ignore lists (tsan/ignore.cc) -/

/-- A suppression/ignore triple of glob patterns over function name, object
(binary image) name and source-file name.  Modelled from the spec: the header
declaring `IgnoreTriple` is not among the sources; the spec says suppressions
are "parsed into ignore triples (fun, obj, file)", a component left
unconstrained being the all-match pattern `*`. -/
structure IgnoreTriple where
  fn : List Char
  obj : List Char
  file : List Char
deriving DecidableEq, Repr

/-- The literal one-character pattern `*`. -/
def star : List Char := ['*']

/-- Modelled from the spec: `IgnoreObj` builds a triple constraining only the
object component. -/
def IgnoreObj (s : List Char) : IgnoreTriple := ⟨star, s, star⟩

/-- Modelled from the spec: `IgnoreFun` builds a triple constraining only the
function component. -/
def IgnoreFun (s : List Char) : IgnoreTriple := ⟨s, star, star⟩

/-- Modelled from the spec: `IgnoreFile` builds a triple constraining only the
source-file component. -/
def IgnoreFile (s : List Char) : IgnoreTriple := ⟨star, star, s⟩

/-- The three ignore lists of `IgnoreLists` (plain, race-root, historical). -/
structure IgnoreLists where
  ignores : List IgnoreTriple
  ignores_r : List IgnoreTriple
  ignores_hist : List IgnoreTriple
deriving DecidableEq, Repr

/-- The character loop of `SplitStringIntoLinesAndRemoveBlanksAndComments`
(ignore.cc).  State threaded through the loop: the partially built current
line and the in-comment flag.  A `'\n'` pushes the current line when
non-empty; spaces and tabs are dropped; `'#'` raises the comment flag until
the next newline; any other character is appended when not in a comment.
The loop ends at the end of the string without pushing the current line. -/
def splitRun : List Char → List Char → Bool → List (List Char)
  | [], _, _ => []
  | c :: rest, curLine, inComment =>
    if c = '\n' then
      (if curLine ≠ [] then [curLine] else []) ++ splitRun rest [] false
    else if c = ' ' ∨ c = '\t' then
      splitRun rest curLine inComment
    else if c = '#' then
      splitRun rest curLine true
    else if inComment then
      splitRun rest curLine inComment
    else
      splitRun rest (curLine ++ [c]) inComment

/-- `SplitStringIntoLinesAndRemoveBlanksAndComments` (ignore.cc). -/
def SplitStringIntoLinesAndRemoveBlanksAndComments (s : List Char) : List (List Char) :=
  splitRun s [] false

/-- `CutStringPrefixIfPresent` (ignore.cc): `input.find(p) == 0` holds exactly
when the line starts with `p`; the tail after `p` is then returned. -/
def CutStringPrefixIfPresent (input pre : List Char) : Option (List Char) :=
  if pre.isPrefixOf input then some (input.drop pre.length) else none

/-- `ReadIgnoreLine` (ignore.cc): try the five known line starts in order and
append one entry to the matching list; `none` models `return false`
(an unknown line start). -/
def ReadIgnoreLine (line : List Char) (g : IgnoreLists) : Option IgnoreLists :=
  match CutStringPrefixIfPresent line ("obj:".toList) with
  | some tail => some { g with ignores := g.ignores ++ [IgnoreObj tail] }
  | none =>
    match CutStringPrefixIfPresent line ("src:".toList) with
    | some tail => some { g with ignores := g.ignores ++ [IgnoreFile tail] }
    | none =>
      match CutStringPrefixIfPresent line ("fun:".toList) with
      | some tail => some { g with ignores := g.ignores ++ [IgnoreFun tail] }
      | none =>
        match CutStringPrefixIfPresent line ("fun_r:".toList) with
        | some tail => some { g with ignores_r := g.ignores_r ++ [IgnoreFun tail] }
        | none =>
          match CutStringPrefixIfPresent line ("fun_hist:".toList) with
          | some tail => some { g with ignores_hist := g.ignores_hist ++ [IgnoreFun tail] }
          | none => none

/-- The line loop of `ReadIgnoresFromString` (ignore.cc): the first line that
`ReadIgnoreLine` rejects is printed and the process dies (`CHECK(0)`),
modelled as `Except.error` carrying the offending line. -/
def readLines (g : IgnoreLists) : List (List Char) → Except (List Char) IgnoreLists
  | [] => Except.ok g
  | l :: rest =>
    match ReadIgnoreLine l g with
    | some g2 => readLines g2 rest
    | none => Except.error l

/-- `ReadIgnoresFromString` (ignore.cc); `g` stands for the global
`g_ignore_lists` the entries are appended to. -/
def ReadIgnoresFromString (s : List Char) (g : IgnoreLists) : Except (List Char) IgnoreLists :=
  readLines g (SplitStringIntoLinesAndRemoveBlanksAndComments s)

/-- Modelled from the spec: `StringMatch` lives in stringmatch.h, which is not
among the sources; the spec says "Globs use `*` and `?` wildcards".  Standard
glob matching of a pattern against a string: `*` matches any sequence, `?` any
one character, anything else itself. -/
def StringMatch : List Char → List Char → Bool
  | [], s => s.isEmpty
  | '*' :: p, s =>
    StringMatch p s ||
      (match s with
       | [] => false
       | _ :: s2 => StringMatch ('*' :: p) s2)
  | '?' :: p, s =>
    (match s with
     | [] => false
     | _ :: s2 => StringMatch p s2)
  | c :: p, s =>
    (match s with
     | [] => false
     | d :: s2 => c == d && StringMatch p s2)
termination_by p s => p.length + s.length

/-- `StringVectorMatch` (ignore.cc): some pattern of the vector matches. -/
def StringVectorMatch (v : List (List Char)) (s : List Char) : Bool :=
  match v with
  | [] => false
  | p :: rest => if StringMatch p s then true else StringVectorMatch rest s

/-- `TripleVectorMatchKnown` (ignore.cc): walk the triples; a triple whose
every component either faces an empty query component or matches the
corresponding non-empty one is a hit, unless every component facing a
non-empty query component is literally `*`, in which case the triple is
skipped. -/
def TripleVectorMatchKnown : List IgnoreTriple → List Char → List Char → List Char → Bool
  | [], _, _, _ => false
  | t :: v, fn, obj, file =>
    if (fn = [] ∨ StringMatch t.fn fn = true)
        ∧ (obj = [] ∨ StringMatch t.obj obj = true)
        ∧ (file = [] ∨ StringMatch t.file file = true) then
      if (fn = [] ∨ t.fn = star) ∧ (obj = [] ∨ t.obj = star) ∧ (file = [] ∨ t.file = star) then
        TripleVectorMatchKnown v fn obj file
      else true
    else
      TripleVectorMatchKnown v fn obj file

/-- Spec-side predicate: the triple matches every non-empty query component
(an empty query component matches anything). -/
def tripleMatches (t : IgnoreTriple) (fn obj file : List Char) : Prop :=
  (fn = [] ∨ StringMatch t.fn fn = true)
    ∧ (obj = [] ∨ StringMatch t.obj obj = true)
    ∧ (file = [] ∨ StringMatch t.file file = true)

/-- Spec-side predicate: the match is trivial — every component matched
against a non-empty query component is literally the pattern `*`. -/
def tripleTrivial (t : IgnoreTriple) (fn obj file : List Char) : Prop :=
  (fn = [] ∨ t.fn = star) ∧ (obj = [] ∨ t.obj = star) ∧ (file = [] ∨ t.file = star)

instance (t : IgnoreTriple) (fn obj file : List Char) :
    Decidable (tripleMatches t fn obj file) := by
  unfold tripleMatches
  infer_instance

instance (t : IgnoreTriple) (fn obj file : List Char) :
    Decidable (tripleTrivial t fn obj file) := by
  unfold tripleTrivial
  infer_instance

/-! ## Tool exit (tsan/ts_valgrind.cc) -/

/-- `ts_fini` (ts_valgrind.cc): at tool finish, exit with `error_exitcode`
when the flag is set and errors were found; otherwise fall through, which
preserves the application's own exit code. -/
def ts_fini (errorExitcode : Int) (numberOfFoundErrors : Nat) (appExitcode : Int) : Int :=
  if errorExitcode ≠ 0 ∧ 0 < numberOfFoundErrors then errorExitcode else appExitcode

/-! ## Thread registry (v2/tsan/tsan_rtl_thread.cc, tsan_defs.h) -/

/-- `kTidBits` (tsan_defs.h). -/
def kTidBits : Nat := 16

/-- `kMaxTid = 1 << kTidBits` (tsan_defs.h). -/
def kMaxTid : Nat := 2 ^ kTidBits

/-- `kThreadQuarantineSize` (v2/tsan/tsan_rtl_thread.cc line 23). -/
def kThreadQuarantineSize : Nat := 100

/-- The value `(u64)-1` stored into `epoch1` by ThreadStart. -/
def kU64Max : Nat := 2 ^ 64 - 1

/-- Thread lifecycle states (`ThreadStatus*`). -/
inductive ThreadStatus
  | Invalid
  | Created
  | Running
  | Finished
  | Dead
deriving DecidableEq, BEq, Repr

/-- Modelled from the spec: `FastState` (tsan_rtl.h is not among the sources)
packs ⟨tid, epoch, ignore bit⟩ into one word; the epoch is a monotonically
increasing per-thread counter and `IncrementEpoch` adds one to it. -/
structure FastState where
  tid : Nat
  epoch : Nat
  ignoreBit : Bool
deriving DecidableEq, Repr

/-- `FastState::IncrementEpoch`. -/
def FastState.IncrementEpoch (fs : FastState) : FastState :=
  { fs with epoch := fs.epoch + 1 }

/-- `FastState::GetIgnoreBit`. -/
def FastState.GetIgnoreBit (fs : FastState) : Bool := fs.ignoreBit

/-- Modelled from the spec: a vector clock maps tid → epoch, zero where never
set (tsan_clock.cc is not among the sources). -/
def ChunkedClock : Type := Nat → Nat

/-- An empty (or freed) clock: all components zero. -/
def zeroClock : ChunkedClock := fun _ => 0

/-- `ChunkedClock::set`. -/
def clockSet (c : ChunkedClock) (t e : Nat) : ChunkedClock :=
  fun i => if i = t then e else c i

/-- `ChunkedClock::get`. -/
def clockGet (c : ChunkedClock) (t : Nat) : Nat := c t

/-- Modelled from the spec: `release` merges the clock element-wise max into
the target clock. -/
def clockRelease (c target : ChunkedClock) : ChunkedClock :=
  fun i => max (target i) (c i)

/-- Modelled from the spec: `acquire` merges the source clock element-wise max
into self. -/
def clockAcquire (c src : ChunkedClock) : ChunkedClock :=
  fun i => max (c i) (src i)

/-- Trace event kinds (`EventType`); only `Mop` appears in this model. -/
inductive EventType
  | Mop
deriving DecidableEq, Repr

/-- One trace event: the epoch it was appended at, its kind and pc.  Modelled
from the spec: `TraceAddEvent` (tsan_rtl.h) appends one event to the thread's
trace ring, here a growing list. -/
structure TraceEvent where
  epoch : Nat
  typ : EventType
  pc : Nat
deriving DecidableEq, Repr

/-- The hot per-thread state (`ThreadState`), restricted to the fields the
claims touch: the fast state, the vector clock, `fast_synch_epoch`, the
shadow stack of return addresses and the trace. -/
structure ThreadState where
  fast_state : FastState
  clock : ChunkedClock
  fast_synch_epoch : Nat
  shadowStack : List Nat
  trace : List TraceEvent

/-- `StackTrace::ObtainCurrent` (trunk/v2/tsan/tsan_sync.cc): the current
shadow stack with `toppc` appended when nonzero. -/
def obtainCurrent (shadowStack : List Nat) (toppc : Nat) : List Nat :=
  shadowStack ++ (if toppc ≠ 0 then [toppc] else [])

/-- The persistent per-thread descriptor (`ThreadContext`), restricted to the
fields the claims touch. -/
structure ThreadContext where
  tid : Nat
  status : ThreadStatus
  uid : Nat
  detached : Bool
  reuse_count : Nat
  sync : ChunkedClock
  creation_stack : List Nat
  epoch0 : Nat
  epoch1 : Nat

/-- Modelled from the spec: the `ThreadContext(tid)` constructor (tsan_rtl.h)
initializes a context in status Invalid with zeroed fields. -/
def ThreadContext.init (tid : Nat) : ThreadContext :=
  { tid := tid, status := ThreadStatus.Invalid, uid := 0, detached := false,
    reuse_count := 0, sync := zeroClock, creation_stack := [],
    epoch0 := 0, epoch1 := 0 }

/-- The process-wide `Context`, restricted to the registry: the thread
sequence counter, the slot array `threads` (one optional context per tid,
embedded as a list of slots), and the dead-thread FIFO (head = oldest).  The
C++ dead list holds pointers to contexts that also sit in `threads`; here the
context value is stored in both and the updated value written back to
`threads` wherever the C++ code mutates it in place. -/
structure Context where
  thread_seq : Nat
  threads : List (Option ThreadContext)
  dead_list : List ThreadContext

/-- Abnormal terminations: `Die()` after the thread-limit message, or a
failed `CHECK` (CheckFailed aborts; its body is not among the sources, but
the spec lists check failures as fatal). -/
inductive DieReason
  | threadLimitExceeded
  | checkFailed
deriving DecidableEq, Repr

/-- `ThreadDead` (v2/tsan/tsan_rtl_thread.cc): requires status Running or
Finished (CHECK), marks the context Dead, clears its uid, frees its sync
clock and appends it to the tail of the dead list. -/
def ThreadDead (ctx : Context) (tctx : ThreadContext) :
    Except DieReason (Context × ThreadContext) :=
  if tctx.status ≠ ThreadStatus.Running ∧ tctx.status ≠ ThreadStatus.Finished then
    Except.error DieReason.checkFailed
  else
    let t2 := { tctx with status := ThreadStatus.Dead, uid := 0, sync := zeroClock }
    Except.ok ({ ctx with
                  dead_list := ctx.dead_list ++ [t2]
                  threads := ctx.threads.set t2.tid (some t2) }, t2)

/-- The tail of `ThreadCreate` shared by the reuse and fresh branches:
`CHECK_EQ(tctx->status, ThreadStatusInvalid)`, move to Created, record uid and
detached; then, for a nonzero tid only, bump the parent's epoch, append one
trace event, set the parent's own clock component, release the parent clock
into the context's sync clock and capture the creation stack. -/
def ThreadCreateCommon (ctx : Context) (thr : ThreadState) (pc uid : Nat)
    (detached : Bool) (tid : Nat) (tctx : ThreadContext) :
    Except DieReason (Nat × Context × ThreadState) :=
  if tctx.status ≠ ThreadStatus.Invalid then
    Except.error DieReason.checkFailed
  else
    let tctx1 := { tctx with
                    status := ThreadStatus.Created
                    uid := uid
                    detached := detached }
    if tid ≠ 0 then
      let fs := thr.fast_state.IncrementEpoch
      let thr1 : ThreadState := { thr with
        fast_state := fs,
        trace := thr.trace ++ [⟨fs.epoch, EventType.Mop, 0⟩],
        clock := clockSet thr.clock fs.tid fs.epoch,
        fast_synch_epoch := fs.epoch }
      let tctx2 := { tctx1 with
        sync := clockRelease thr1.clock tctx1.sync,
        creation_stack := obtainCurrent thr1.shadowStack pc }
      Except.ok (tid, { ctx with threads := ctx.threads.set tid (some tctx2) }, thr1)
    else
      Except.ok (tid, { ctx with threads := ctx.threads.set tid (some tctx1) }, thr)

/-- `ThreadCreate` (v2/tsan/tsan_rtl_thread.cc): when the dead list is longer
than the quarantine size, or the tid sequence has reached `kMaxTid`, reuse the
head of the dead list (dying with the thread-limit message when it is empty);
otherwise take a fresh tid from the sequence counter. -/
def ThreadCreate (ctx : Context) (thr : ThreadState) (pc uid : Nat)
    (detached : Bool) : Except DieReason (Nat × Context × ThreadState) :=
  if ctx.dead_list.length > kThreadQuarantineSize ∨ ctx.thread_seq ≥ kMaxTid then
    match ctx.dead_list with
    | [] => Except.error DieReason.threadLimitExceeded
    | tctx0 :: rest =>
      if tctx0.status ≠ ThreadStatus.Dead then
        Except.error DieReason.checkFailed
      else
        let tctx1 := { tctx0 with
                        status := ThreadStatus.Invalid
                        reuse_count := tctx0.reuse_count + 1 }
        ThreadCreateCommon { ctx with dead_list := rest } thr pc uid detached
          tctx1.tid tctx1
  else
    let tid := ctx.thread_seq
    ThreadCreateCommon { ctx with thread_seq := ctx.thread_seq + 1 } thr pc uid
      detached tid (ThreadContext.init tid)

/-- `ThreadStart` (v2/tsan/tsan_rtl_thread.cc).  The `debug` flag is the
value of `TSAN_DEBUG`; the context and status checks are plain `CHECK`s
(tsan_defs.h), active no matter its value.  The stack/tls shadow reset is
outside this model's state.  A fresh `ThreadState` is built for the started
thread, its clock component set to `epoch0` and the context's sync clock
acquired into it. -/
def ThreadStart (debug : Bool) (ctx : Context) (tid : Nat) :
    Except DieReason (Context × ThreadState) :=
  let _ := debug
  match ctx.threads.getD tid none with
  | none => Except.error DieReason.checkFailed
  | some tctx =>
    if tctx.status ≠ ThreadStatus.Created then
      Except.error DieReason.checkFailed
    else
      let epoch0 := tctx.epoch1 + 1
      let thr : ThreadState := {
        fast_state := ⟨tid, epoch0, false⟩,
        clock := clockAcquire (clockSet zeroClock tid epoch0) tctx.sync,
        fast_synch_epoch := epoch0,
        shadowStack := [], trace := [] }
      let tctx1 := { tctx with
                      status := ThreadStatus.Running
                      epoch0 := epoch0
                      epoch1 := kU64Max }
      Except.ok ({ ctx with threads := ctx.threads.set tid (some tctx1) }, thr)

/-! ## Thread-leak reports at finalize -/

/-- Report kinds (`ReportType`, tsan_report.h; the header is not among the
sources, its fields are modelled from their uses in the sources). -/
inductive ReportType
  | DataRace
  | ThreadLeak
deriving DecidableEq, Repr

/-- The `ReportThread` record filled by ThreadFinalize: thread id, whether it
was still running (status other than Finished) and its creation stack
(symbolization is the front-end's job; the stack stays a pc list here). -/
structure ReportThreadDesc where
  id : Nat
  running : Bool
  stack : List Nat
deriving DecidableEq, Repr

/-- The fields of `ReportDesc` that ThreadFinalize fills. -/
structure ReportDesc where
  typ : ReportType
  nthread : Nat
  thread : Option ReportThreadDesc
deriving DecidableEq, Repr

/-- The thread-leak report ThreadFinalize assembles for one context. -/
def leakReport (tctx : ThreadContext) : ReportDesc :=
  { typ := ReportType.ThreadLeak, nthread := 1,
    thread := some { id := tctx.tid,
                     running := decide (tctx.status ≠ ThreadStatus.Finished),
                     stack := tctx.creation_stack } }

/-- `ThreadFinalize` (v2/tsan/tsan_rtl_thread.cc): walk the thread slots;
skip empty slots, detached contexts and contexts whose status is none of
Created, Running, Finished; emit one thread-leak report for each remaining
context.  Returns the list of reports printed (in slot order). -/
def ThreadFinalize (threads : List (Option ThreadContext)) : List ReportDesc :=
  match threads with
  | [] => []
  | none :: rest => ThreadFinalize rest
  | some tctx :: rest =>
    if tctx.detached then ThreadFinalize rest
    else if tctx.status ≠ ThreadStatus.Created ∧ tctx.status ≠ ThreadStatus.Running
        ∧ tctx.status ≠ ThreadStatus.Finished then
      ThreadFinalize rest
    else
      leakReport tctx :: ThreadFinalize rest

/-- Spec-side: one leak report per context in status Created, Running or
Finished whose detached flag is clear, none for any other slot. -/
def leakReportsSpec (threads : List (Option ThreadContext)) : List ReportDesc :=
  threads.filterMap (fun slot =>
    match slot with
    | none => none
    | some tctx =>
      if (tctx.status = ThreadStatus.Created ∨ tctx.status = ThreadStatus.Running
            ∨ tctx.status = ThreadStatus.Finished) ∧ tctx.detached = false then
        some (leakReport tctx)
      else none)

/-! ## Range memory accesses (v2/tsan/tsan_rtl_thread.cc) -/

/-- `kShadowCell` (tsan_defs.h): one shadow cell covers 8 application bytes. -/
def kShadowCell : Nat := 8

/-- `kShadowCnt` (tsan_defs.h): shadow words per cell (default build). -/
def kShadowCnt : Nat := 8

/-- One `MemoryAccessImpl` call made by `MemoryAccessRange`: the byte address
given, the shadow-cell index relative to the range start (the `shadow_mem`
pointer in units of `kShadowCnt` words), and the candidate shadow word `cur`:
tid and epoch from the fast state, offset within the cell (`addr0`), the
access-size log and the write flag. -/
structure Access where
  addr : Nat
  shadowOff : Nat
  tid : Nat
  epoch : Nat
  addr0 : Nat
  sizeLog : Nat
  isWrite : Bool
deriving DecidableEq, Repr

/-- Build the `cur` shadow word of one `MemoryAccessImpl` call. -/
def mkAccess (fs : FastState) (w : Bool) (addr shadowOff addr0 sizeLog : Nat) : Access :=
  ⟨addr, shadowOff, fs.tid, fs.epoch, addr0, sizeLog, w⟩

/-- The first loop of `MemoryAccessRange`: per-byte accesses (size-log 0)
while the address is not cell-aligned and bytes remain; returns the accesses
and the address and size left.  The shadow pointer is not advanced inside
this loop. -/
def loopPre (fs : FastState) (w : Bool) : Nat → Nat → List Access × Nat × Nat
  | addr, 0 => ([], addr, 0)
  | addr, size + 1 =>
    if addr % kShadowCell = 0 then ([], addr, size + 1)
    else
      let r := loopPre fs w (addr + 1) size
      (mkAccess fs w addr 0 (addr % kShadowCell) 0 :: r.1, r.2.1, r.2.2)

/-- The middle loop of `MemoryAccessRange`: aligned whole-cell accesses
(size-log 3, offset 0), the shadow pointer advancing one cell per iteration;
returns the accesses and the shadow offset, address and size left. -/
def loopBody (fs : FastState) (w : Bool) : Nat → Nat → Nat → List Access × Nat × Nat × Nat
  | off, addr, size =>
    if h : kShadowCell ≤ size then
      let r := loopBody fs w (off + 1) (addr + kShadowCell) (size - kShadowCell)
      (mkAccess fs w addr off 0 3 :: r.1, r.2)
    else
      ([], off, addr, size)
termination_by off addr size => size
decreasing_by
  simp only [kShadowCell] at h ⊢
  omega

/-- The final loop of `MemoryAccessRange`: per-byte accesses for the bytes
left, the shadow pointer staying on the cell reached after the middle. -/
def loopTail (fs : FastState) (w : Bool) (off : Nat) : Nat → Nat → List Access
  | _, 0 => []
  | addr, size + 1 =>
    mkAccess fs w addr off (addr % kShadowCell) 0 ::
      loopTail fs w off (addr + 1) size

/-- The outcome of `MemoryAccessRange`: the thread's fast state, its trace
and the `MemoryAccessImpl` calls made, in order. -/
structure RangeResult where
  fast_state : FastState
  trace : List TraceEvent
  accesses : List Access
deriving DecidableEq, Repr

/-- `MemoryAccessRange` (v2/tsan/tsan_rtl_thread.cc): empty ranges return at
once, as do threads with the ignore bit set; otherwise the epoch is
incremented once, one Mop trace event appended, and the range handled as the
unaligned beginning, the aligned middle and the ending; after the beginning
the shadow pointer moves to the next cell when the start was unaligned. -/
def MemoryAccessRange (fast_state : FastState) (trace : List TraceEvent)
    (pc addr size : Nat) (is_write : Bool) : RangeResult :=
  if size = 0 then ⟨fast_state, trace, []⟩
  else if fast_state.GetIgnoreBit then ⟨fast_state, trace, []⟩
  else
    let fs := fast_state.IncrementEpoch
    let tr := trace ++ [⟨fs.epoch, EventType.Mop, pc⟩]
    let unaligned := addr % kShadowCell ≠ 0
    let p := loopPre fs is_write addr size
    let off0 := if unaligned then 1 else 0
    let b := loopBody fs is_write off0 p.2.1 p.2.2
    let t := loopTail fs is_write b.2.1 b.2.2.1 b.2.2.2
    ⟨fs, tr, p.1 ++ b.1 ++ t⟩

/-- Spec-side closed form of the range decomposition: with `r = addr % 8`,
the prefix covers `min size ((8 - r) % 8)` bytes (up to the first cell
boundary) as per-byte accesses in the first cell; the body covers the
following `(size - p) / 8` aligned cells as whole-cell accesses; the suffix
covers the remaining `(size - p) % 8` bytes as per-byte accesses.  Every
piece carries the write flag and its offset within its cell; body and suffix
sit in the cells after the first when the start was unaligned. -/
def specRange (fs : FastState) (w : Bool) (addr size : Nat) : List Access :=
  let r := addr % kShadowCell
  let p := min size ((kShadowCell - r) % kShadowCell)
  let off0 := if r = 0 then 0 else 1
  let m := (size - p) / kShadowCell
  let s := (size - p) % kShadowCell
  ((List.range p).map fun i =>
    mkAccess fs w (addr + i) 0 ((addr + i) % kShadowCell) 0)
  ++ ((List.range m).map fun j =>
    mkAccess fs w (addr + p + kShadowCell * j) (off0 + j) 0 3)
  ++ ((List.range s).map fun k =>
    mkAccess fs w (addr + p + kShadowCell * m + k) (off0 + m)
      ((addr + p + kShadowCell * m + k) % kShadowCell) 0)

/-! ## Sync-variable table (trunk/v2/tsan/tsan_sync.cc) -/

/-- A sync variable as `GetAndLock` handles it: its address, its creation
stack, and its r/w-lock state (`some m` once locked, `m` true for write
mode). -/
structure SyncVarData where
  addr : Nat
  creation_stack : List Nat
  lockMode : Option Bool
deriving DecidableEq, Repr

/-- `SyncTab::PartIdx` (trunk/v2/tsan/tsan_sync.cc): the shard of an address.
The shard count `kPartCount` is a parameter here (its defining header is not
among the sources); the table's length plays its role below. -/
def PartIdx (partCount addr : Nat) : Nat := (addr >>> 3) % partCount

/-- The sync table: one intrusive bucket list per shard.  Shard and sync-var
locks collapse away in this sequential embedding. -/
def SyncTabData : Type := List (List SyncVarData)

/-- The bucket walk of `GetAndLock`: the first entry with the address. -/
def bucketFind (bucket : List SyncVarData) (addr : Nat) : Option SyncVarData :=
  bucket.find? (fun s => s.addr == addr)

/-- Lock a sync variable in the requested mode (`Mutex::Lock` or
`Mutex::ReadLock` on its `mtx`). -/
def lockVar (s : SyncVarData) (write_lock : Bool) : SyncVarData :=
  { s with lockMode := some write_lock }

/-- Write the lock of the first entry with the address back into the bucket
(the C++ code locks the found object in place). -/
def lockInBucket (bucket : List SyncVarData) (addr : Nat) (write_lock : Bool) :
    List SyncVarData :=
  match bucket with
  | [] => []
  | s :: rest =>
    if s.addr = addr then lockVar s write_lock :: rest
    else s :: lockInBucket rest addr write_lock

/-- `SyncTab::GetAndLock` (trunk/v2/tsan/tsan_sync.cc): under the shard
read-lock, walk the bucket and return a hit locked in the requested mode; on
a miss take the shard write-lock, re-check the bucket (another writer may
have inserted), and only if it is still absent allocate a new `SyncVar`
carrying the current stack as creation stack, prepend it to the bucket, lock
it and return it. -/
def GetAndLock (shadowStack : List Nat) (pc : Nat) (tab : SyncTabData)
    (addr : Nat) (write_lock : Bool) : SyncVarData × SyncTabData :=
  let i := PartIdx tab.length addr
  let bucket := tab.getD i []
  match bucketFind bucket addr with
  | some res =>
    (lockVar res write_lock, tab.set i (lockInBucket bucket addr write_lock))
  | none =>
    match bucketFind bucket addr with
    | some res =>
      (lockVar res write_lock, tab.set i (lockInBucket bucket addr write_lock))
    | none =>
      let res : SyncVarData :=
        { addr := addr, creation_stack := obtainCurrent shadowStack pc,
          lockMode := some write_lock }
      (res, tab.set i (res :: bucket))

/-- How many entries of a bucket carry the address. -/
def countAddr (bucket : List SyncVarData) (addr : Nat) : Nat :=
  bucket.countP (fun s => s.addr == addr)

/-- How many entries of the whole table carry the address. -/
def tabCount (tab : SyncTabData) (addr : Nat) : Nat :=
  (tab.map fun b => countAddr b addr).sum

/-- Every entry sits in the bucket its address hashes to. -/
def wellPlaced (tab : SyncTabData) : Prop :=
  ∀ i, i < tab.length → ∀ s ∈ tab.getD i [], PartIdx tab.length s.addr = i

/-- The table invariant of the claim: at most one instance per address. -/
def atMostOne (tab : SyncTabData) : Prop :=
  ∀ a, tabCount tab a ≤ 1

/-- The tid a ThreadCreate call assigned, when it returned at all. -/
def createResultTid (r : Except DieReason (Nat × Context × ThreadState)) : Option Nat :=
  match r with
  | Except.ok q => some q.1
  | Except.error _ => none

/-! ## Spec-side helpers for the ignore-file claims -/

/-- A line begins with one of the five known directive spellings. -/
def knownLineStart (l : List Char) : Prop :=
  ("obj:".toList).isPrefixOf l = true
    ∨ ("src:".toList).isPrefixOf l = true
    ∨ ("fun:".toList).isPrefixOf l = true
    ∨ ("fun_r:".toList).isPrefixOf l = true
    ∨ ("fun_hist:".toList).isPrefixOf l = true

/-- Which ignore list a line feeds, following the same first-match order as
`ReadIgnoreLine`: 0 = `ignores` (obj/src/fun), 1 = `ignores_r`,
2 = `ignores_hist`, none = unknown directive. -/
def lineClass (l : List Char) : Option Nat :=
  if ("obj:".toList).isPrefixOf l then some 0
  else if ("src:".toList).isPrefixOf l then some 0
  else if ("fun:".toList).isPrefixOf l then some 0
  else if ("fun_r:".toList).isPrefixOf l then some 1
  else if ("fun_hist:".toList).isPrefixOf l then some 2
  else none

/-- Total number of entries across the three ignore lists. -/
def totalEntries (g : IgnoreLists) : Nat :=
  g.ignores.length + g.ignores_r.length + g.ignores_hist.length

/-- Spec-side view of a raw suppression text: its newline-terminated
segments, in order; characters after the last newline belong to no segment. -/
def newlineSegs : List Char → List (List Char)
  | [] => []
  | c :: rest =>
    if c = '\n' then [] :: newlineSegs rest
    else
      match newlineSegs rest with
      | [] => []
      | seg :: segs => (c :: seg) :: segs

/-- Spec-side view of one segment: the text before the first `#`, with every
space and tab deleted. -/
def cleanLine (seg : List Char) : List Char :=
  (seg.takeWhile (fun c => c ≠ '#')).filter (fun c => c ≠ ' ' ∧ c ≠ '\t')

/-- The processed segments as seen from mid-loop state: the first segment is
completed from the pending current line (contributing nothing further when
the comment flag is up), the rest are cleaned in full. -/
def withHead (cur : List Char) (inC : Bool) : List (List Char) → List (List Char)
  | [] => []
  | seg :: segs => (cur ++ (if inC then [] else cleanLine seg)) :: segs.map cleanLine

end DRT

namespace DRT

/-! ## Theorems -/

/-- C8: at tool finish, when `error_exitcode` is nonzero and at least one
error was found the process exits with `error_exitcode`; otherwise the
application's own exit code is preserved. -/
theorem tsFini_exit (ec app : Int) (n : Nat) :
    (ec ≠ 0 → 0 < n → ts_fini ec n app = ec)
    ∧ (ec = 0 ∨ n = 0 → ts_fini ec n app = app) := by
  constructor
  · intro h1 h2
    simp [ts_fini, h1, h2]
  · intro h
    unfold ts_fini
    rcases h with h | h <;> simp [h]

/-- Witness for C8 at a concrete input. -/
theorem tsFini_exit_witness : ts_fini 5 2 0 = 5 :=
  (tsFini_exit 5 0 2).1 (by decide) (by decide)

/-- C4: at finalize, exactly the non-detached thread contexts in status
Created, Running or Finished produce one thread-leak report each, naming
their tid and carrying their creation stack; detached contexts and contexts
in other states produce none. -/
theorem threadFinalize_leaks (threads : List (Option ThreadContext)) :
    ThreadFinalize threads = leakReportsSpec threads := by
  induction threads with
  | nil => rfl
  | cons slot rest ih =>
    cases slot with
    | none => simpa [ThreadFinalize, leakReportsSpec] using ih
    | some tctx =>
      by_cases hd : tctx.detached
      · simp [ThreadFinalize, leakReportsSpec, hd, ih]
      · by_cases hs : tctx.status ≠ ThreadStatus.Created
            ∧ tctx.status ≠ ThreadStatus.Running
            ∧ tctx.status ≠ ThreadStatus.Finished
        · have hs2 : ¬ (tctx.status = ThreadStatus.Created
              ∨ tctx.status = ThreadStatus.Running
              ∨ tctx.status = ThreadStatus.Finished) := by
            tauto
          simp [ThreadFinalize, leakReportsSpec, hd, hs, hs2, ih]
        · have hs2 : tctx.status = ThreadStatus.Created
              ∨ tctx.status = ThreadStatus.Running
              ∨ tctx.status = ThreadStatus.Finished := by
            tauto
          simp [ThreadFinalize, leakReportsSpec, hd, hs, hs2, ih]

/-- C6 counterexample: in a release build (`debug = false`), a ThreadStart
for a tid whose context is Finished (not Created) still dies on the CHECK;
the event is not logged and skipped. -/
theorem threadStart_release_aborts :
    ThreadStart false
      ⟨4, [none, none, none,
           some ⟨3, ThreadStatus.Finished, 0, false, 0, zeroClock, [], 0, 0⟩], []⟩ 3
      = Except.error DieReason.checkFailed := rfl

/-- C6 (amended): a ThreadStart for a tid whose context is not in status
Created fails the CHECK and dies, in debug and release builds alike. -/
theorem threadStart_not_created_dies (debug : Bool) (ctx : Context) (tid : Nat)
    (tctx : ThreadContext) (hget : ctx.threads.getD tid none = some tctx)
    (hst : tctx.status ≠ ThreadStatus.Created) :
    ThreadStart debug ctx tid = Except.error DieReason.checkFailed := by
  unfold ThreadStart
  simp only [hget]
  simp [hst]

/-- Witness for C6 at a concrete input. -/
theorem threadStart_not_created_dies_witness :
    ThreadStart true ⟨1, [some ⟨0, ThreadStatus.Running, 0, false, 0, zeroClock, [], 0, 0⟩], []⟩ 0
      = Except.error DieReason.checkFailed :=
  threadStart_not_created_dies true
    ⟨1, [some ⟨0, ThreadStatus.Running, 0, false, 0, zeroClock, [], 0, 0⟩], []⟩ 0
    ⟨0, ThreadStatus.Running, 0, false, 0, zeroClock, [], 0, 0⟩ rfl (by decide)

/-- C5 counterexample: the very first create (which assigns tid 0) leaves the
creating thread's epoch, clock and trace untouched and captures no creation
stack — the thread-create release protocol is skipped for tid 0. -/
theorem threadCreate_tid0_no_release :
    ThreadCreate ⟨0, [], []⟩ ⟨⟨0, 5, false⟩, zeroClock, 0, [11], []⟩ 9 1 false
      = Except.ok (0, ⟨1, [], []⟩, ⟨⟨0, 5, false⟩, zeroClock, 0, [11], []⟩) := rfl

/-- C5 (amended): on every thread create that assigns a nonzero tid, the
creating thread increments its epoch (appending one trace event), sets its
own vector-clock component to the new epoch, and releases its clock into the
new context's sync clock, and the creation stack is captured from the
parent's current shadow stack; for the fresh-tid branch the context starts
with an empty sync clock, for the reuse branch with the reused context's
sync clock. -/
theorem threadCreate_release (ctx : Context) (thr : ThreadState) (pc uid : Nat)
    (detached : Bool) :
    (¬ (ctx.dead_list.length > kThreadQuarantineSize ∨ ctx.thread_seq ≥ kMaxTid) →
      ctx.thread_seq ≠ 0 →
      ThreadCreate ctx thr pc uid detached =
        Except.ok (ctx.thread_seq,
          { ctx with
             thread_seq := ctx.thread_seq + 1
             threads := ctx.threads.set ctx.thread_seq (some
               { ThreadContext.init ctx.thread_seq with
                  status := ThreadStatus.Created
                  uid := uid
                  detached := detached
                  sync := clockRelease
                    (clockSet thr.clock thr.fast_state.tid (thr.fast_state.epoch + 1))
                    zeroClock
                  creation_stack := obtainCurrent thr.shadowStack pc }) },
          { thr with
             fast_state := thr.fast_state.IncrementEpoch
             trace := thr.trace ++ [⟨thr.fast_state.epoch + 1, EventType.Mop, 0⟩]
             clock := clockSet thr.clock thr.fast_state.tid (thr.fast_state.epoch + 1)
             fast_synch_epoch := thr.fast_state.epoch + 1 }))
    ∧ ((ctx.dead_list.length > kThreadQuarantineSize ∨ ctx.thread_seq ≥ kMaxTid) →
      ∀ t0 rest, ctx.dead_list = t0 :: rest → t0.status = ThreadStatus.Dead →
      t0.tid ≠ 0 →
      ThreadCreate ctx thr pc uid detached =
        Except.ok (t0.tid,
          { ctx with
             dead_list := rest
             threads := ctx.threads.set t0.tid (some
               { t0 with
                  status := ThreadStatus.Created
                  reuse_count := t0.reuse_count + 1
                  uid := uid
                  detached := detached
                  sync := clockRelease
                    (clockSet thr.clock thr.fast_state.tid (thr.fast_state.epoch + 1))
                    t0.sync
                  creation_stack := obtainCurrent thr.shadowStack pc }) },
          { thr with
             fast_state := thr.fast_state.IncrementEpoch
             trace := thr.trace ++ [⟨thr.fast_state.epoch + 1, EventType.Mop, 0⟩]
             clock := clockSet thr.clock thr.fast_state.tid (thr.fast_state.epoch + 1)
             fast_synch_epoch := thr.fast_state.epoch + 1 })) := by
  constructor
  · intro hcond hseq
    unfold ThreadCreate
    rw [if_neg hcond]
    unfold ThreadCreateCommon
    rw [if_neg (by simp [ThreadContext.init])]
    rw [if_pos hseq]
    rfl
  · intro hcond t0 rest hdl hst htid
    unfold ThreadCreate
    rw [if_pos hcond, hdl]
    simp only [hst]
    rw [if_neg (by simp)]
    unfold ThreadCreateCommon
    rw [if_neg (by simp)]
    rw [if_pos htid]
    rfl

/-- Witness for C5 at a concrete input (fresh branch, tid 3). -/
theorem threadCreate_release_witness :
    (ThreadCreate ⟨3, [none, none, none, none], []⟩
      ⟨⟨0, 5, false⟩, zeroClock, 7, [11, 12], []⟩ 13 42 false).isOk = true := by
  rw [(threadCreate_release ⟨3, [none, none, none, none], []⟩
    ⟨⟨0, 5, false⟩, zeroClock, 7, [11, 12], []⟩ 13 42 false).1 (by decide) (by decide)]
  rfl

/-- C3 counterexample: with the quarantine at exactly the quarantine size
(100 Dead contexts, oldest tid 0) and the sequence counter at 100, the next
create does not reuse the oldest Dead tid — it assigns the fresh tid 100. -/
theorem threadCreate_at_quarantine_fresh :
    (((List.range 100).map fun i =>
        { ThreadContext.init i with status := ThreadStatus.Dead }).length
      = kThreadQuarantineSize)
    ∧ ((((List.range 100).map fun i =>
        { ThreadContext.init i with status := ThreadStatus.Dead }).map
          (fun t => t.tid)).head? = some 0)
    ∧ createResultTid (ThreadCreate
        ⟨100, [], (List.range 100).map fun i =>
          { ThreadContext.init i with status := ThreadStatus.Dead }⟩
        ⟨⟨0, 0, false⟩, zeroClock, 0, [], []⟩ 0 0 false) = some 100 := by
  refine ⟨by simp [kThreadQuarantineSize], by decide, ?_⟩
  rfl

/-- C3 (amended): ThreadCreate reuses the oldest Dead tid (the head of the
FIFO quarantine, to which ThreadDead appends) exactly when the quarantine
size exceeds Q (Q = 100) or the thread sequence counter has reached 2^16
with a non-empty quarantine; when neither holds it assigns a fresh tid from
the sequence counter; and when the quarantine is empty with the counter at
2^16 it dies with the thread-limit message. -/
theorem threadCreate_tids (ctx : Context) (thr : ThreadState) (pc uid : Nat)
    (detached : Bool) :
    (ctx.dead_list = [] → ctx.thread_seq ≥ kMaxTid →
      ThreadCreate ctx thr pc uid detached = Except.error DieReason.threadLimitExceeded)
    ∧ (¬ (ctx.dead_list.length > kThreadQuarantineSize ∨ ctx.thread_seq ≥ kMaxTid) →
      ∃ r, ThreadCreate ctx thr pc uid detached = Except.ok r
        ∧ r.1 = ctx.thread_seq
        ∧ r.2.1.thread_seq = ctx.thread_seq + 1
        ∧ r.2.1.dead_list = ctx.dead_list)
    ∧ ((ctx.dead_list.length > kThreadQuarantineSize ∨ ctx.thread_seq ≥ kMaxTid) →
      ∀ t0 rest, ctx.dead_list = t0 :: rest → t0.status = ThreadStatus.Dead →
      ∃ r, ThreadCreate ctx thr pc uid detached = Except.ok r
        ∧ r.1 = t0.tid
        ∧ r.2.1.dead_list = rest
        ∧ r.2.1.thread_seq = ctx.thread_seq)
    ∧ (∀ tctx, tctx.status = ThreadStatus.Running ∨ tctx.status = ThreadStatus.Finished →
      ∃ q, ThreadDead ctx tctx = Except.ok q
        ∧ q.2.tid = tctx.tid
        ∧ q.2.status = ThreadStatus.Dead
        ∧ q.1.dead_list = ctx.dead_list ++ [q.2]) := by
  refine ⟨?_, ?_, ?_, ?_⟩
  · intro hdl hseq
    unfold ThreadCreate
    rw [if_pos (Or.inr hseq), hdl]
  · intro hcond
    unfold ThreadCreate
    rw [if_neg hcond]
    unfold ThreadCreateCommon
    rw [if_neg (by simp [ThreadContext.init])]
    by_cases h0 : ctx.thread_seq ≠ 0
    · rw [if_pos h0]
      exact ⟨_, rfl, rfl, rfl, rfl⟩
    · rw [if_neg h0]
      exact ⟨_, rfl, rfl, rfl, rfl⟩
  · intro hcond t0 rest hdl hst
    unfold ThreadCreate
    rw [if_pos hcond, hdl]
    simp only [hst]
    rw [if_neg (by simp)]
    unfold ThreadCreateCommon
    rw [if_neg (by simp)]
    by_cases h0 : t0.tid ≠ 0
    · rw [if_pos h0]
      exact ⟨_, rfl, rfl, rfl, rfl⟩
    · rw [if_neg h0]
      exact ⟨_, rfl, rfl, rfl, rfl⟩
  · intro tctx hst
    unfold ThreadDead
    rw [if_neg (by tauto)]
    exact ⟨_, rfl, rfl, rfl, rfl⟩

/-- Witness for C3 at a concrete input (thread-limit death). -/
theorem threadCreate_tids_witness :
    ThreadCreate ⟨kMaxTid, [], []⟩ ⟨⟨0, 0, false⟩, zeroClock, 0, [], []⟩ 0 0 false
      = Except.error DieReason.threadLimitExceeded :=
  (threadCreate_tids ⟨kMaxTid, [], []⟩ ⟨⟨0, 0, false⟩, zeroClock, 0, [], []⟩ 0 0 false).1
    rfl (by decide)

/-- A line classifies as unknown exactly when it has no known start. -/
theorem lineClass_none_iff (l : List Char) :
    lineClass l = none ↔ ¬ knownLineStart l := by
  unfold lineClass knownLineStart
  split_ifs with h1 h2 h3 h4 h5 <;> simp_all

/-- One call of ReadIgnoreLine: an unknown line is rejected; a known line
adds exactly one entry to the list its class selects. -/
theorem readIgnoreLine_class (l : List Char) (g : IgnoreLists) :
    (lineClass l = none → ReadIgnoreLine l g = none)
    ∧ (∀ k, lineClass l = some k →
      ∃ g2, ReadIgnoreLine l g = some g2
        ∧ g2.ignores.length = g.ignores.length + (if k = 0 then 1 else 0)
        ∧ g2.ignores_r.length = g.ignores_r.length + (if k = 1 then 1 else 0)
        ∧ g2.ignores_hist.length = g.ignores_hist.length + (if k = 2 then 1 else 0)) := by
  unfold ReadIgnoreLine CutStringPrefixIfPresent lineClass
  split_ifs with h1 h2 h3 h4 h5 <;>
    refine ⟨fun hn => by simp_all, fun k hk => ?_⟩ <;>
    simp only [Option.some.injEq] at hk <;>
    first
      | exact absurd hk (by simp)
      | (subst hk; exact ⟨_, rfl, by simp⟩)

/-- Every known line falls in class 0, 1 or 2, so the per-class counts of an
all-known line list add up to its length. -/
theorem countClass_total (lines : List (List Char)) :
    (∀ l ∈ lines, knownLineStart l) →
    lines.countP (fun l => lineClass l == some 0)
      + lines.countP (fun l => lineClass l == some 1)
      + lines.countP (fun l => lineClass l == some 2) = lines.length := by
  induction lines with
  | nil => intro _; simp
  | cons l rest ih =>
    intro h
    have hl : knownLineStart l := h l (by simp)
    have hrest := ih (fun x hx => h x (List.mem_cons_of_mem _ hx))
    have hcl : lineClass l = some 0 ∨ lineClass l = some 1 ∨ lineClass l = some 2 := by
      unfold lineClass
      unfold knownLineStart at hl
      split_ifs <;> simp_all
    rcases hcl with h0 | h0 | h0 <;>
      simp [List.countP_cons, h0, hrest] <;> omega

/-- The line loop of ReadIgnoresFromString: succeeds exactly when every line
is known, reports the first unknown line otherwise, and in success grows each
ignore list by the number of lines of its class. -/
theorem readLines_spec (lines : List (List Char)) :
    ∀ g : IgnoreLists,
    ((∃ g2, readLines g lines = Except.ok g2) ↔ ∀ l ∈ lines, knownLineStart l)
    ∧ (∀ l, readLines g lines = Except.error l → l ∈ lines ∧ ¬ knownLineStart l)
    ∧ (∀ g2, readLines g lines = Except.ok g2 →
        g2.ignores.length = g.ignores.length
          + lines.countP (fun l => lineClass l == some 0)
        ∧ g2.ignores_r.length = g.ignores_r.length
          + lines.countP (fun l => lineClass l == some 1)
        ∧ g2.ignores_hist.length = g.ignores_hist.length
          + lines.countP (fun l => lineClass l == some 2)) := by
  induction lines with
  | nil =>
    intro g
    refine ⟨by simp [readLines], ?_, ?_⟩
    · intro l h
      simp [readLines] at h
    · intro g2 h
      simp only [readLines, Except.ok.injEq] at h
      subst h
      simp
  | cons l rest ih =>
    intro g
    rcases hcl : lineClass l with _ | k
    · have hnone := (readIgnoreLine_class l g).1 hcl
      have hknown : ¬ knownLineStart l := (lineClass_none_iff l).1 hcl
      refine ⟨?_, ?_, ?_⟩
      · constructor
        · rintro ⟨g2, hg2⟩
          simp [readLines, hnone] at hg2
        · intro hall
          exact absurd (hall l (by simp)) hknown
      · intro l2 h
        simp only [readLines, hnone, Except.error.injEq] at h
        subst h
        exact ⟨by simp, hknown⟩
      · intro g2 h
        simp [readLines, hnone] at h
    · obtain ⟨g2, hg2, e0, e1, e2⟩ := (readIgnoreLine_class l g).2 k hcl
      have hknown : knownLineStart l := by
        by_contra hk
        rw [(lineClass_none_iff l).2 hk] at hcl
        simp at hcl
      have hk3 : k = 0 ∨ k = 1 ∨ k = 2 := by
        unfold lineClass at hcl
        split_ifs at hcl <;> simp_all
      have step : readLines g (l :: rest) = readLines g2 rest := by
        simp [readLines, hg2]
      obtain ⟨ih1, ih2, ih3⟩ := ih g2
      refine ⟨?_, ?_, ?_⟩
      · rw [step]
        constructor
        · intro h x hx
          rcases List.mem_cons.1 hx with rfl | hx2
          · exact hknown
          · exact (ih1.1 h) x hx2
        · intro hall
          exact ih1.2 (fun x hx => hall x (List.mem_cons_of_mem _ hx))
      · intro l2 h
        rw [step] at h
        obtain ⟨hm, hku⟩ := ih2 l2 h
        exact ⟨List.mem_cons_of_mem _ hm, hku⟩
      · intro g3 h
        rw [step] at h
        obtain ⟨f0, f1, f2⟩ := ih3 g3 h
        rcases hk3 with rfl | rfl | rfl <;>
          refine ⟨?_, ?_, ?_⟩ <;>
          simp [List.countP_cons, hcl, f0, f1, f2, e0, e1, e2] <;> omega

/-- C7: every processed suppression line must begin with one of obj:, src:,
fun:, fun_r:, fun_hist:, each adding exactly one entry to the ignore list it
selects; parsing succeeds exactly when all lines are known, and a line with
an unknown start is a fatal error carrying that offending line. -/
theorem readIgnores_spec (s : List Char) (g : IgnoreLists) :
    ((∃ g2, ReadIgnoresFromString s g = Except.ok g2)
      ↔ ∀ l ∈ SplitStringIntoLinesAndRemoveBlanksAndComments s, knownLineStart l)
    ∧ (∀ l, ReadIgnoresFromString s g = Except.error l →
        l ∈ SplitStringIntoLinesAndRemoveBlanksAndComments s ∧ ¬ knownLineStart l)
    ∧ (∀ g2, ReadIgnoresFromString s g = Except.ok g2 →
        totalEntries g2 = totalEntries g
          + (SplitStringIntoLinesAndRemoveBlanksAndComments s).length
        ∧ g2.ignores.length = g.ignores.length
          + (SplitStringIntoLinesAndRemoveBlanksAndComments s).countP
              (fun l => lineClass l == some 0)
        ∧ g2.ignores_r.length = g.ignores_r.length
          + (SplitStringIntoLinesAndRemoveBlanksAndComments s).countP
              (fun l => lineClass l == some 1)
        ∧ g2.ignores_hist.length = g.ignores_hist.length
          + (SplitStringIntoLinesAndRemoveBlanksAndComments s).countP
              (fun l => lineClass l == some 2)) := by
  obtain ⟨h1, h2, h3⟩ := readLines_spec (SplitStringIntoLinesAndRemoveBlanksAndComments s) g
  refine ⟨h1, h2, ?_⟩
  intro g2 h
  obtain ⟨f0, f1, f2⟩ := h3 g2 h
  have hall := h1.1 ⟨g2, h⟩
  have htot := countClass_total _ hall
  unfold totalEntries
  exact ⟨by omega, f0, f1, f2⟩

/-- Witness for C7 at a concrete input (an unknown directive is fatal and
carries the offending line). -/
theorem readIgnores_spec_witness :
    "bad:x".toList ∈ SplitStringIntoLinesAndRemoveBlanksAndComments "fun:a\nbad:x\n".toList
      ∧ ¬ knownLineStart "bad:x".toList :=
  (readIgnores_spec "fun:a\nbad:x\n".toList ⟨[], [], []⟩).2.1 "bad:x".toList rfl

/-- Unfolding of the triple walk at a cons cell, phrased with the spec-side
predicates (definitionally the conditions the code tests). -/
theorem TVMK_cons (t : IgnoreTriple) (v : List IgnoreTriple) (fn obj file : List Char) :
    TripleVectorMatchKnown (t :: v) fn obj file =
      if tripleMatches t fn obj file then
        (if tripleTrivial t fn obj file then TripleVectorMatchKnown v fn obj file
         else true)
      else TripleVectorMatchKnown v fn obj file := by
  simp only [TripleVectorMatchKnown]
  rfl

/-- C9: the triple matcher returns true iff some triple matches every
non-empty query component and that match is non-trivial (not every
constrained component is the literal pattern `*`); in particular the
all-wildcard triple matches no query at all. -/
theorem tripleVectorMatchKnown_spec (v : List IgnoreTriple) (fn obj file : List Char) :
    (TripleVectorMatchKnown v fn obj file = true
      ↔ ∃ t ∈ v, tripleMatches t fn obj file ∧ ¬ tripleTrivial t fn obj file)
    ∧ (∀ fn2 obj2 file2,
        TripleVectorMatchKnown [⟨star, star, star⟩] fn2 obj2 file2 = false) := by
  constructor
  · induction v with
    | nil => simp [TripleVectorMatchKnown]
    | cons t v ih =>
      rw [TVMK_cons]
      by_cases hm : tripleMatches t fn obj file
      · by_cases ht : tripleTrivial t fn obj file
        · simp [hm, ht, ih]
        · simp [hm, ht]
      · simp [hm, ih]
  · intro fn2 obj2 file2
    have ht : tripleTrivial ⟨star, star, star⟩ fn2 obj2 file2 :=
      ⟨Or.inr rfl, Or.inr rfl, Or.inr rfl⟩
    rw [TVMK_cons]
    by_cases hm : tripleMatches ⟨star, star, star⟩ fn2 obj2 file2 <;>
      simp [hm, ht, TripleVectorMatchKnown]

/-- Cleaning one segment, one character at a time. -/
theorem cleanLine_cons (c : Char) (seg : List Char) :
    cleanLine (c :: seg) =
      if c = '#' then []
      else if c = ' ' ∨ c = '\t' then cleanLine seg
      else c :: cleanLine seg := by
  unfold cleanLine
  by_cases h1 : c = '#'
  · simp [h1, List.takeWhile_cons]
  · by_cases h2 : c = ' ' ∨ c = '\t'
    · have hf : ¬ (c ≠ ' ' ∧ c ≠ '\t') := by tauto
      simp [List.takeWhile_cons, List.filter_cons, h1, h2, hf]
    · have hf : c ≠ ' ' ∧ c ≠ '\t' := by tauto
      simp [List.takeWhile_cons, List.filter_cons, h1, h2, hf]

/-- With nothing pending and the comment flag down, the mid-loop view is the
plain cleaning of every segment. -/
theorem withHead_nil_false (segs : List (List Char)) :
    withHead [] false segs = segs.map cleanLine := by
  cases segs <;> simp [withHead]

/-- The splitter loop computes, from any mid-loop state, the cleaned
newline-terminated segments with the pending line completing the first. -/
theorem splitRun_spec (s : List Char) : ∀ cur inC,
    splitRun s cur inC = (withHead cur inC (newlineSegs s)).filter (fun l => l ≠ []) := by
  induction s with
  | nil =>
    intro cur inC
    rfl
  | cons c rest ih =>
    intro cur inC
    by_cases hn : c = '\n'
    · subst hn
      have hl : splitRun ('\n' :: rest) cur inC
          = (if cur ≠ [] then [cur] else []) ++ splitRun rest [] false := by
        simp [splitRun]
      rw [hl, ih [] false, withHead_nil_false]
      have hr : newlineSegs ('\n' :: rest) = [] :: newlineSegs rest := by
        simp [newlineSegs]
      rw [hr]
      simp only [withHead, if_pos, List.append_nil, List.filter_cons]
      by_cases hc : cur = [] <;> simp [hc, cleanLine]
    · rcases hseg : newlineSegs rest with _ | ⟨seg, segs⟩
      · have hr : newlineSegs (c :: rest) = [] := by
          simp [newlineSegs, hn, hseg]
        rw [hr]
        by_cases hsp : c = ' ' ∨ c = '\t'
        · have hl : splitRun (c :: rest) cur inC = splitRun rest cur inC := by
            rcases hsp with h | h <;> simp [splitRun, hn, h]
          rw [hl, ih cur inC, hseg]
          try rfl
        · by_cases hh : c = '#'
          · have hl : splitRun (c :: rest) cur inC = splitRun rest cur true := by
              simp [splitRun, hn, hsp, hh]
            rw [hl, ih cur true, hseg]
            try rfl
          · by_cases hic : inC
            · have hl : splitRun (c :: rest) cur inC = splitRun rest cur inC := by
                simp [splitRun, hn, hsp, hh, hic]
              rw [hl, ih cur inC, hseg]
              try rfl
            · have hl : splitRun (c :: rest) cur inC = splitRun rest (cur ++ [c]) inC := by
                simp [splitRun, hn, hsp, hh, hic]
              rw [hl, ih (cur ++ [c]) inC, hseg]
              try rfl
      · have hr : newlineSegs (c :: rest) = (c :: seg) :: segs := by
          simp [newlineSegs, hn, hseg]
        rw [hr]
        by_cases hsp : c = ' ' ∨ c = '\t'
        · have hl : splitRun (c :: rest) cur inC = splitRun rest cur inC := by
            rcases hsp with h | h <;> simp [splitRun, hn, h]
          rw [hl, ih cur inC, hseg]
          have : cleanLine (c :: seg) = cleanLine seg := by
            rw [cleanLine_cons]
            have hch : c ≠ '#' := by
              rcases hsp with h | h <;> subst h <;> decide
            simp [hch, hsp]
          simp [withHead, this]
        · by_cases hh : c = '#'
          · have hl : splitRun (c :: rest) cur inC = splitRun rest cur true := by
              simp [splitRun, hn, hsp, hh]
            rw [hl, ih cur true, hseg]
            have : cleanLine (c :: seg) = [] := by
              rw [cleanLine_cons]
              simp [hh]
            simp [withHead, this]
          · by_cases hic : inC
            · have hl : splitRun (c :: rest) cur inC = splitRun rest cur inC := by
                simp [splitRun, hn, hsp, hh, hic]
              rw [hl, ih cur inC, hseg]
              simp [withHead, hic]
            · have hl : splitRun (c :: rest) cur inC = splitRun rest (cur ++ [c]) inC := by
                simp [splitRun, hn, hsp, hh, hic]
              rw [hl, ih (cur ++ [c]) inC, hseg]
              have : cleanLine (c :: seg) = c :: cleanLine seg := by
                rw [cleanLine_cons]
                simp [hh, hsp]
              simp [withHead, hic, this]

/-- A newline-free stream has no terminated segment. -/
theorem newlineSegs_no_nl (t : List Char) (ht : '\n' ∉ t) : newlineSegs t = [] := by
  induction t with
  | nil => rfl
  | cons c rest ih =>
    have hc : c ≠ '\n' := by
      intro h
      exact ht (h ▸ List.mem_cons_self c rest)
    have hr : '\n' ∉ rest := fun h => ht (List.mem_cons_of_mem _ h)
    simp [newlineSegs, hc, ih hr]

/-- Appending newline-free characters adds no terminated segment. -/
theorem newlineSegs_append (s t : List Char) (ht : '\n' ∉ t) :
    newlineSegs (s ++ t) = newlineSegs s := by
  induction s with
  | nil => simpa using newlineSegs_no_nl t ht
  | cons c rest ih => simp [newlineSegs, ih]

/-- C10: the splitter deletes every space and tab anywhere in a line,
discards characters from `#` to the end of that line while keeping the text
before it, keeps only the non-blank results, and silently discards a final
line not terminated by a newline — so such a trailing line contributes no
ignore entry and no parse error. -/
theorem splitString_spec (s : List Char) :
    SplitStringIntoLinesAndRemoveBlanksAndComments s
      = ((newlineSegs s).map cleanLine).filter (fun l => l ≠ [])
    ∧ (∀ t g, '\n' ∉ t →
        SplitStringIntoLinesAndRemoveBlanksAndComments (s ++ t)
          = SplitStringIntoLinesAndRemoveBlanksAndComments s
        ∧ ReadIgnoresFromString (s ++ t) g = ReadIgnoresFromString s g) := by
  have h1 : ∀ u, SplitStringIntoLinesAndRemoveBlanksAndComments u
      = ((newlineSegs u).map cleanLine).filter (fun l => l ≠ []) := by
    intro u
    unfold SplitStringIntoLinesAndRemoveBlanksAndComments
    rw [splitRun_spec, withHead_nil_false]
  refine ⟨h1 s, ?_⟩
  intro t g ht
  have h2 : SplitStringIntoLinesAndRemoveBlanksAndComments (s ++ t)
      = SplitStringIntoLinesAndRemoveBlanksAndComments s := by
    rw [h1, h1, newlineSegs_append s t ht]
  refine ⟨h2, ?_⟩
  unfold ReadIgnoresFromString
  rw [h2]

/-- The unaligned-beginning loop in closed form: it covers
`min size ((8 - addr mod 8) mod 8)` bytes as size-log-0 accesses carrying
their in-cell offsets, and leaves the advanced address and remaining size. -/
theorem loopPre_spec (fs : FastState) (w : Bool) :
    ∀ size addr,
    loopPre fs w addr size =
      ((List.range (min size ((kShadowCell - addr % kShadowCell) % kShadowCell))).map
          (fun i => mkAccess fs w (addr + i) 0 ((addr + i) % kShadowCell) 0),
        addr + min size ((kShadowCell - addr % kShadowCell) % kShadowCell),
        size - min size ((kShadowCell - addr % kShadowCell) % kShadowCell)) := by
  intro size
  induction size with
  | zero =>
    intro addr
    have h0 : min 0 ((kShadowCell - addr % kShadowCell) % kShadowCell) = 0 := by
      simp
    simp [loopPre, h0]
  | succ n ih =>
    intro addr
    by_cases ha : addr % kShadowCell = 0
    · have h0 : min (n + 1) ((kShadowCell - addr % kShadowCell) % kShadowCell) = 0 := by
        simp only [kShadowCell] at ha ⊢
        omega
      simp [loopPre, ha, h0]
    · have hP : min (n + 1) ((kShadowCell - addr % kShadowCell) % kShadowCell)
          = min n ((kShadowCell - (addr + 1) % kShadowCell) % kShadowCell) + 1 := by
        simp only [kShadowCell] at ha ⊢
        omega
      simp only [loopPre, if_neg ha]
      rw [ih (addr + 1), hP]
      rw [List.range_succ_eq_map, List.map_cons, List.map_map]
      refine congrArg₂ Prod.mk ?_ (congrArg₂ Prod.mk
        (by simp only [kShadowCell]; omega) (by simp only [kShadowCell]; omega))
      refine congrArg₂ List.cons (by simp) ?_
      apply List.map_congr_left
      intro i hi
      have hsh : addr + 1 + i = addr + (i + 1) := by omega
      simp [Function.comp, hsh]

/-- The aligned-middle loop in closed form: `size / 8` whole-cell accesses at
consecutive cells, leaving the advanced offset and address and `size mod 8`
bytes. -/
theorem loopBody_spec (fs : FastState) (w : Bool) :
    ∀ size off addr,
    loopBody fs w off addr size =
      ((List.range (size / kShadowCell)).map
          (fun j => mkAccess fs w (addr + kShadowCell * j) (off + j) 0 3),
        off + size / kShadowCell,
        addr + kShadowCell * (size / kShadowCell),
        size % kShadowCell) := by
  intro size
  induction size using Nat.strong_induction_on with
  | _ size ih =>
    intro off addr
    rw [loopBody]
    by_cases h : kShadowCell ≤ size
    · rw [dif_pos h]
      have hlt : size - kShadowCell < size := by
        simp only [kShadowCell] at h ⊢
        omega
      have hrec := ih _ hlt (off + 1) (addr + kShadowCell)
      simp only [hrec]
      have hd : size / kShadowCell = (size - kShadowCell) / kShadowCell + 1 := by
        simp only [kShadowCell] at h ⊢
        omega
      rw [hd, List.range_succ_eq_map, List.map_cons, List.map_map]
      have hm : size % kShadowCell = (size - kShadowCell) % kShadowCell := by
        simp only [kShadowCell] at h ⊢
        omega
      refine congrArg₂ Prod.mk ?_
        (congrArg₂ Prod.mk (by simp only [kShadowCell]; omega)
          (congrArg₂ Prod.mk (by simp only [kShadowCell] at h ⊢; omega) hm.symm))
      refine congrArg₂ List.cons (by simp) ?_
      apply List.map_congr_left
      intro j hj
      have h1 : addr + kShadowCell + kShadowCell * j = addr + kShadowCell * (j + 1) := by ring
      have h2 : off + 1 + j = off + (j + 1) := by omega
      simp [Function.comp, h1, h2]
    · rw [dif_neg h]
      have hd : size / kShadowCell = 0 := by
        simp only [kShadowCell] at h ⊢
        omega
      have hm : size % kShadowCell = size := by
        simp only [kShadowCell] at h ⊢
        omega
      simp [hd, hm]

/-- The ending loop in closed form: one size-log-0 access per remaining byte,
all in the cell the shadow pointer reached. -/
theorem loopTail_spec (fs : FastState) (w : Bool) (off : Nat) :
    ∀ size addr,
    loopTail fs w off addr size =
      (List.range size).map
        (fun k => mkAccess fs w (addr + k) off ((addr + k) % kShadowCell) 0) := by
  intro size
  induction size with
  | zero =>
    intro addr
    simp [loopTail]
  | succ n ih =>
    intro addr
    simp only [loopTail]
    rw [ih (addr + 1), List.range_succ_eq_map, List.map_cons, List.map_map]
    refine congrArg₂ List.cons (by simp) ?_
    apply List.map_congr_left
    intro k hk
    have hsh : addr + 1 + k = addr + (k + 1) := by omega
    simp [Function.comp, hsh]

/-- C1: a MemoryAccessRange call with a nonempty range and the ignore bit
clear increments the epoch exactly once, appends exactly one trace event
(at the new epoch, with the call's pc), and issues the per-byte prefix up to
the first cell boundary, the aligned whole-cell body, and the per-byte
suffix, each piece carrying the write flag and its offset within its cell. -/
theorem memoryAccessRange_spec (fs : FastState) (tr : List TraceEvent)
    (pc addr size : Nat) (w : Bool) (hsz : 0 < size)
    (hig : fs.GetIgnoreBit = false) :
    MemoryAccessRange fs tr pc addr size w =
      ⟨fs.IncrementEpoch,
       tr ++ [⟨fs.epoch + 1, EventType.Mop, pc⟩],
       specRange fs.IncrementEpoch w addr size⟩ := by
  unfold MemoryAccessRange
  rw [if_neg (by omega), if_neg (by simp [hig])]
  simp only [loopPre_spec, loopBody_spec, loopTail_spec, specRange,
    FastState.IncrementEpoch]
  by_cases hr : addr % kShadowCell = 0 <;>
    simp [hr]

/-- Witness for C1 at a concrete input (an unaligned 20-byte write). -/
theorem memoryAccessRange_spec_witness :
    MemoryAccessRange ⟨1, 4, false⟩ [] 2 5 20 true
      = ⟨⟨1, 5, false⟩, [⟨5, EventType.Mop, 2⟩], specRange ⟨1, 5, false⟩ true 5 20⟩ := by
  rw [memoryAccessRange_spec ⟨1, 4, false⟩ [] 2 5 20 true (by decide) rfl]
  rfl

/-- Counting at a cons cell. -/
theorem countAddr_cons (s : SyncVarData) (b : List SyncVarData) (a : Nat) :
    countAddr (s :: b) a = countAddr b a + (if s.addr = a then 1 else 0) := by
  by_cases h : s.addr = a <;> simp [countAddr, List.countP_cons, h]

/-- Table count at a cons cell. -/
theorem tabCount_cons (b : List SyncVarData) (rest : SyncTabData) (a : Nat) :
    tabCount (b :: rest) a = countAddr b a + tabCount rest a := by
  simp [tabCount]

/-- Locking an entry in place changes no address count. -/
theorem countAddr_lockInBucket (b : List SyncVarData) (addr : Nat) (m : Bool) (a : Nat) :
    countAddr (lockInBucket b addr m) a = countAddr b a := by
  induction b with
  | nil => rfl
  | cons s rest ih =>
    by_cases h : s.addr = addr
    · simp [lockInBucket, h, countAddr_cons, lockVar]
    · simp [lockInBucket, h, countAddr_cons, ih]

/-- Entries of the locked bucket keep the addresses of the original ones. -/
theorem mem_lockInBucket (b : List SyncVarData) (addr : Nat) (m : Bool) :
    ∀ x ∈ lockInBucket b addr m, ∃ y ∈ b, x.addr = y.addr := by
  induction b with
  | nil =>
    intro x hx
    simp [lockInBucket] at hx
  | cons s rest ih =>
    intro x hx
    by_cases h : s.addr = addr
    · simp only [lockInBucket, if_pos h, List.mem_cons] at hx
      rcases hx with rfl | hx
      · exact ⟨s, by simp, by simp [lockVar]⟩
      · exact ⟨x, by simp [hx], rfl⟩
    · simp only [lockInBucket, if_neg h, List.mem_cons] at hx
      rcases hx with rfl | hx
      · exact ⟨x, by simp, rfl⟩
      · obtain ⟨y, hy, he⟩ := ih x hx
        exact ⟨y, by simp [hy], he⟩

/-- Locking twice is locking once. -/
theorem lockInBucket_idem (b : List SyncVarData) (addr : Nat) (m : Bool) :
    lockInBucket (lockInBucket b addr m) addr m = lockInBucket b addr m := by
  induction b with
  | nil => rfl
  | cons s rest ih =>
    by_cases h : s.addr = addr
    · simp [lockInBucket, h, lockVar]
    · simp [lockInBucket, h, ih]

/-- A bucket hit is a member carrying the looked-up address. -/
theorem bucketFind_some (b : List SyncVarData) (addr : Nat) (v : SyncVarData)
    (h : bucketFind b addr = some v) : v ∈ b ∧ v.addr = addr := by
  unfold bucketFind at h
  refine ⟨List.mem_of_find?_eq_some h, ?_⟩
  have := List.find?_some h
  simpa using this

/-- A bucket miss means no entry carries the address. -/
theorem bucketFind_none (b : List SyncVarData) (addr : Nat)
    (h : bucketFind b addr = none) : countAddr b addr = 0 := by
  unfold bucketFind at h
  rw [List.find?_eq_none] at h
  unfold countAddr
  rw [List.countP_eq_zero]
  intro s hs
  simpa using h s hs

/-- Finding in the locked bucket finds the locked entry. -/
theorem bucketFind_lockInBucket (b : List SyncVarData) (addr : Nat) (m : Bool) :
    bucketFind (lockInBucket b addr m) addr
      = (bucketFind b addr).map (fun v => lockVar v m) := by
  induction b with
  | nil => rfl
  | cons s rest ih =>
    by_cases h : s.addr = addr
    · simp [lockInBucket, bucketFind, h, lockVar]
    · simp [lockInBucket, bucketFind, h]
      exact ih

/-- Reading back the bucket just written. -/
theorem getD_set_self (tab : SyncTabData) :
    ∀ i b2, i < tab.length → (tab.set i b2).getD i [] = b2 := by
  induction tab with
  | nil =>
    intro i b2 h
    simp at h
  | cons b rest ih =>
    intro i b2 h
    cases i with
    | zero => rfl
    | succ n =>
      exact ih n b2 (by simp at h; omega)

/-- Writing one bucket leaves the others. -/
theorem getD_set_other (tab : SyncTabData) :
    ∀ i j b2, j ≠ i → (tab.set i b2).getD j [] = tab.getD j [] := by
  induction tab with
  | nil =>
    intro i j b2 h
    rfl
  | cons b rest ih =>
    intro i j b2 h
    cases i with
    | zero =>
      cases j with
      | zero => exact absurd rfl h
      | succ n => rfl
    | succ mm =>
      cases j with
      | zero => rfl
      | succ n => exact ih mm n b2 (by omega)

/-- Replacing one bucket trades its count for the new bucket's count. -/
theorem tabCount_set (a : Nat) :
    ∀ (tab : SyncTabData) i b2, i < tab.length →
    tabCount (tab.set i b2) a + countAddr (tab.getD i []) a
      = tabCount tab a + countAddr b2 a := by
  intro tab
  induction tab with
  | nil =>
    intro i b2 h
    simp at h
  | cons b rest ih =>
    intro i b2 h
    cases i with
    | zero =>
      simp [tabCount_cons]
      omega
    | succ n =>
      have hrec := ih n b2 (by simp at h; omega)
      simp only [List.set_cons_succ, List.getD_cons_succ, tabCount_cons]
      omega

/-- A bucket's count bounds the table's count. -/
theorem tabCount_ge (a : Nat) :
    ∀ (tab : SyncTabData) i, i < tab.length →
    countAddr (tab.getD i []) a ≤ tabCount tab a := by
  intro tab
  induction tab with
  | nil =>
    intro i h
    simp at h
  | cons b rest ih =>
    intro i h
    cases i with
    | zero =>
      simp [tabCount_cons]
    | succ n =>
      have hrec := ih n (by simp at h; omega)
      simp only [List.getD_cons_succ, tabCount_cons]
      omega

/-- A table all of whose buckets miss an address counts it zero. -/
theorem tabCount_eq_zero (a : Nat) :
    ∀ (tab : SyncTabData),
    (∀ j, j < tab.length → countAddr (tab.getD j []) a = 0) → tabCount tab a = 0 := by
  intro tab
  induction tab with
  | nil =>
    intro _
    rfl
  | cons b rest ih =>
    intro h
    have h0 := h 0 (by simp)
    have hr := ih (fun j hj => by
      have := h (j + 1) (by simp; omega)
      simpa using this)
    simp only [List.getD_cons_zero] at h0
    simp [tabCount_cons, h0, hr]

/-- When every bucket but one misses an address, the table's count is that
bucket's count. -/
theorem tabCount_eq_single (a : Nat) :
    ∀ (tab : SyncTabData) i, i < tab.length →
    (∀ j, j < tab.length → j ≠ i → countAddr (tab.getD j []) a = 0) →
    tabCount tab a = countAddr (tab.getD i []) a := by
  intro tab
  induction tab with
  | nil =>
    intro i h
    simp at h
  | cons b rest ih =>
    intro i hi hz
    cases i with
    | zero =>
      have hr : tabCount rest a = 0 := by
        apply tabCount_eq_zero
        intro j hj
        have := hz (j + 1) (by simp; omega) (by omega)
        simpa using this
      simp [tabCount_cons, hr]
    | succ n =>
      have hrec := ih n (by simp at hi; omega) (fun j hj hne => by
        have := hz (j + 1) (by simp; omega) (by omega)
        simpa using this)
      have h0 : countAddr b a = 0 := by
        have := hz 0 (by simp) (by omega)
        simpa using this
      simp only [List.getD_cons_succ, tabCount_cons, h0, hrec]
      omega

/-- Under well-placement, buckets other than an address's own miss it. -/
theorem wellPlaced_other_zero (tab : SyncTabData) (hw : wellPlaced tab) (a j : Nat)
    (hj : j < tab.length) (hne : j ≠ PartIdx tab.length a) :
    countAddr (tab.getD j []) a = 0 := by
  unfold countAddr
  rw [List.countP_eq_zero]
  intro s hs
  simp only [beq_iff_eq]
  intro hc
  apply hne
  rw [← hc]
  exact (hw j hj s hs).symm

/-- Under well-placement, the table count of an address is its own bucket's
count. -/
theorem tabCount_localize (tab : SyncTabData) (hw : wellPlaced tab) (a : Nat)
    (hlen : 0 < tab.length) :
    tabCount tab a = countAddr (tab.getD (PartIdx tab.length a) []) a := by
  apply tabCount_eq_single a tab (PartIdx tab.length a)
  · unfold PartIdx
    exact Nat.mod_lt _ hlen
  · intro j hj hne
    exact wellPlaced_other_zero tab hw a j hj hne

/-- GetAndLock on a bucket miss: allocate, capture the stack, prepend. -/
theorem getAndLock_miss (st : List Nat) (pc : Nat) (tab : SyncTabData)
    (addr : Nat) (m : Bool)
    (hfind : bucketFind (tab.getD (PartIdx tab.length addr) []) addr = none) :
    GetAndLock st pc tab addr m
      = (⟨addr, obtainCurrent st pc, some m⟩,
         tab.set (PartIdx tab.length addr)
           (⟨addr, obtainCurrent st pc, some m⟩
             :: tab.getD (PartIdx tab.length addr) [])) := by
  unfold GetAndLock
  simp only [hfind]

/-- GetAndLock on a bucket hit: return the existing entry locked in place. -/
theorem getAndLock_hit (st : List Nat) (pc : Nat) (tab : SyncTabData)
    (addr : Nat) (m : Bool) (v : SyncVarData)
    (hfind : bucketFind (tab.getD (PartIdx tab.length addr) []) addr = some v) :
    GetAndLock st pc tab addr m
      = (lockVar v m,
         tab.set (PartIdx tab.length addr)
           (lockInBucket (tab.getD (PartIdx tab.length addr) []) addr m)) := by
  unfold GetAndLock
  simp only [hfind]

/-- C2: for every address the table holds at most one SyncVar at any
instant.  GetAndLock returns a variable for the requested address locked in
the requested mode; a bucket hit returns the existing variable; a miss
allocates exactly one new variable with the current stack captured and
prepends it to its bucket; well-placement and the at-most-one invariant are
preserved, afterwards exactly one instance for the address exists and no
other address count changes; and a second lookup of the same address returns
the very same variable and leaves the table untouched. -/
theorem getAndLock_spec (st : List Nat) (pc : Nat) (tab : SyncTabData)
    (addr : Nat) (m : Bool) (hlen : 0 < tab.length) (hw : wellPlaced tab)
    (hone : atMostOne tab) :
    ((GetAndLock st pc tab addr m).1.addr = addr
        ∧ (GetAndLock st pc tab addr m).1.lockMode = some m)
    ∧ tabCount (GetAndLock st pc tab addr m).2 addr = 1
    ∧ (∀ a, a ≠ addr →
        tabCount (GetAndLock st pc tab addr m).2 a = tabCount tab a)
    ∧ wellPlaced (GetAndLock st pc tab addr m).2
    ∧ atMostOne (GetAndLock st pc tab addr m).2
    ∧ (∀ v, bucketFind (tab.getD (PartIdx tab.length addr) []) addr = some v →
        (GetAndLock st pc tab addr m).1 = lockVar v m)
    ∧ (bucketFind (tab.getD (PartIdx tab.length addr) []) addr = none →
        (GetAndLock st pc tab addr m).1.creation_stack = obtainCurrent st pc
        ∧ (GetAndLock st pc tab addr m).2.getD (PartIdx tab.length addr) []
            = (GetAndLock st pc tab addr m).1
                :: tab.getD (PartIdx tab.length addr) [])
    ∧ (∀ st2 pc2,
        GetAndLock st2 pc2 (GetAndLock st pc tab addr m).2 addr m
          = ((GetAndLock st pc tab addr m).1, (GetAndLock st pc tab addr m).2)) := by
  have hilt : PartIdx tab.length addr < tab.length := by
    unfold PartIdx
    exact Nat.mod_lt _ hlen
  rcases hfind : bucketFind (tab.getD (PartIdx tab.length addr) []) addr with _ | v
  · -- miss: one fresh variable, prepended
    rw [getAndLock_miss st pc tab addr m hfind]
    simp only []
    have hzero : countAddr (tab.getD (PartIdx tab.length addr) []) addr = 0 :=
      bucketFind_none _ _ hfind
    have htab0 : tabCount tab addr = 0 := by
      rw [tabCount_localize tab hw addr hlen]
      exact hzero
    have hset := tabCount_set addr tab (PartIdx tab.length addr)
      (⟨addr, obtainCurrent st pc, some m⟩ :: tab.getD (PartIdx tab.length addr) []) hilt
    have hlen2 : (tab.set (PartIdx tab.length addr)
        (⟨addr, obtainCurrent st pc, some m⟩
          :: tab.getD (PartIdx tab.length addr) [])).length = tab.length := by
      simp
    refine ⟨⟨by trivial, by trivial⟩, ?_, ?_, ?_, ?_, ?_, ?_, ?_⟩
    · have hc := countAddr_cons ⟨addr, obtainCurrent st pc, some m⟩
        (tab.getD (PartIdx tab.length addr) []) addr
      simp only [] at hc
      rw [if_pos trivial] at hc
      omega
    · intro a ha
      have hset2 := tabCount_set a tab (PartIdx tab.length addr)
        (⟨addr, obtainCurrent st pc, some m⟩ :: tab.getD (PartIdx tab.length addr) []) hilt
      have hc := countAddr_cons ⟨addr, obtainCurrent st pc, some m⟩
        (tab.getD (PartIdx tab.length addr) []) a
      simp only [] at hc
      rw [if_neg (Ne.symm ha)] at hc
      omega
    · intro j hj s hs
      rw [hlen2] at hj ⊢
      by_cases hji : j = PartIdx tab.length addr
      · subst hji
        rw [getD_set_self tab _ _ hilt] at hs
        rcases List.mem_cons.1 hs with rfl | hs2
        · rfl
        · exact hw _ hilt s hs2
      · rw [getD_set_other tab _ _ _ hji] at hs
        exact hw j hj s hs
    · intro a
      by_cases ha : a = addr
      · subst ha
        have hc := countAddr_cons ⟨a, obtainCurrent st pc, some m⟩
          (tab.getD (PartIdx tab.length a) []) a
        simp only [] at hc
        rw [if_pos trivial] at hc
        omega
      · have hset2 := tabCount_set a tab (PartIdx tab.length addr)
          (⟨addr, obtainCurrent st pc, some m⟩ :: tab.getD (PartIdx tab.length addr) []) hilt
        have hc := countAddr_cons ⟨addr, obtainCurrent st pc, some m⟩
          (tab.getD (PartIdx tab.length addr) []) a
        simp only [] at hc
        rw [if_neg (Ne.symm ha)] at hc
        have := hone a
        omega
    · intro v hv
      exact absurd hv (by simp)
    · intro _
      exact ⟨by trivial, getD_set_self tab _ _ hilt⟩
    · intro st2 pc2
      have hidx : PartIdx (tab.set (PartIdx tab.length addr)
          (⟨addr, obtainCurrent st pc, some m⟩
            :: tab.getD (PartIdx tab.length addr) [])).length addr
          = PartIdx tab.length addr := by
        rw [hlen2]
      have hb2 : (tab.set (PartIdx tab.length addr)
          (⟨addr, obtainCurrent st pc, some m⟩
            :: tab.getD (PartIdx tab.length addr) [])).getD
            (PartIdx tab.length addr) []
          = ⟨addr, obtainCurrent st pc, some m⟩
              :: tab.getD (PartIdx tab.length addr) [] :=
        getD_set_self tab _ _ hilt
      have hfind2 : bucketFind ((tab.set (PartIdx tab.length addr)
          (⟨addr, obtainCurrent st pc, some m⟩
            :: tab.getD (PartIdx tab.length addr) [])).getD
            (PartIdx (tab.set (PartIdx tab.length addr)
              (⟨addr, obtainCurrent st pc, some m⟩
                :: tab.getD (PartIdx tab.length addr) [])).length addr) []) addr
          = some ⟨addr, obtainCurrent st pc, some m⟩ := by
        rw [hidx, hb2]
        simp [bucketFind]
      rw [getAndLock_hit st2 pc2 _ addr m _ hfind2, hidx, hb2]
      have hlock : lockVar ⟨addr, obtainCurrent st pc, some m⟩ m
          = (⟨addr, obtainCurrent st pc, some m⟩ : SyncVarData) := rfl
      rw [hlock]
      have hlib : lockInBucket (⟨addr, obtainCurrent st pc, some m⟩
          :: tab.getD (PartIdx tab.length addr) []) addr m
          = ⟨addr, obtainCurrent st pc, some m⟩
              :: tab.getD (PartIdx tab.length addr) [] := by
        simp [lockInBucket, lockVar]
      rw [hlib, List.set_set]
  · -- hit: the existing variable, locked in place
    rw [getAndLock_hit st pc tab addr m v hfind]
    simp only []
    obtain ⟨hvmem, hvaddr⟩ := bucketFind_some _ _ _ hfind
    have hcnt : ∀ a, countAddr (lockInBucket (tab.getD (PartIdx tab.length addr) []) addr m) a
        = countAddr (tab.getD (PartIdx tab.length addr) []) a :=
      fun a => countAddr_lockInBucket _ _ _ a
    have hset := fun a => tabCount_set a tab (PartIdx tab.length addr)
      (lockInBucket (tab.getD (PartIdx tab.length addr) []) addr m) hilt
    have heq : ∀ a, tabCount (tab.set (PartIdx tab.length addr)
        (lockInBucket (tab.getD (PartIdx tab.length addr) []) addr m)) a
        = tabCount tab a := by
      intro a
      have h1 := hset a
      rw [hcnt a] at h1
      omega
    have hpos : 1 ≤ countAddr (tab.getD (PartIdx tab.length addr) []) addr := by
      unfold countAddr
      refine Nat.succ_le_of_lt (List.countP_pos_iff.2 ⟨v, hvmem, by simp [hvaddr]⟩)
    have hlen2 : (tab.set (PartIdx tab.length addr)
        (lockInBucket (tab.getD (PartIdx tab.length addr) []) addr m)).length
        = tab.length := by
      simp
    refine ⟨⟨by simp [lockVar, hvaddr], by simp [lockVar]⟩, ?_, ?_, ?_, ?_, ?_, ?_, ?_⟩
    · rw [heq addr]
      have hge := tabCount_ge addr tab (PartIdx tab.length addr) hilt
      have := hone addr
      omega
    · intro a _
      exact heq a
    · intro j hj s hs
      rw [hlen2] at hj ⊢
      by_cases hji : j = PartIdx tab.length addr
      · subst hji
        rw [getD_set_self tab _ _ hilt] at hs
        obtain ⟨y, hy, he⟩ := mem_lockInBucket _ _ _ s hs
        rw [he]
        exact hw _ hilt y hy
      · rw [getD_set_other tab _ _ _ hji] at hs
        exact hw j hj s hs
    · intro a
      rw [heq a]
      exact hone a
    · intro v2 hv2
      simp only [Option.some.injEq] at hv2
      rw [hv2]
    · intro hv2
      exact absurd hv2 (by simp)
    · intro st2 pc2
      have hidx : PartIdx (tab.set (PartIdx tab.length addr)
          (lockInBucket (tab.getD (PartIdx tab.length addr) []) addr m)).length addr
          = PartIdx tab.length addr := by
        rw [hlen2]
      have hb2 : (tab.set (PartIdx tab.length addr)
          (lockInBucket (tab.getD (PartIdx tab.length addr) []) addr m)).getD
            (PartIdx tab.length addr) []
          = lockInBucket (tab.getD (PartIdx tab.length addr) []) addr m :=
        getD_set_self tab _ _ hilt
      have hfind2 : bucketFind ((tab.set (PartIdx tab.length addr)
          (lockInBucket (tab.getD (PartIdx tab.length addr) []) addr m)).getD
            (PartIdx (tab.set (PartIdx tab.length addr)
              (lockInBucket (tab.getD (PartIdx tab.length addr) []) addr m)).length addr) [])
            addr
          = some (lockVar v m) := by
        rw [hidx, hb2, bucketFind_lockInBucket, hfind]
        rfl
      rw [getAndLock_hit st2 pc2 _ addr m _ hfind2, hidx, hb2]
      have hlock : lockVar (lockVar v m) m = lockVar v m := rfl
      rw [hlock, lockInBucket_idem, List.set_set]

/-- Witness for C2 at a concrete input (a one-shard empty table). -/
theorem getAndLock_spec_witness :
    ((GetAndLock [3] 4 [[]] 5 true).1.addr = 5
        ∧ (GetAndLock [3] 4 [[]] 5 true).1.lockMode = some true)
    ∧ tabCount (GetAndLock [3] 4 [[]] 5 true).2 5 = 1 :=
  have h := getAndLock_spec [3] 4 [[]] 5 true (by decide)
    (by
      intro i hi s hs
      have h0 : i = 0 := by simpa using hi
      subst h0
      simp at hs)
    (by
      intro a
      simp [tabCount, countAddr])
  ⟨h.1, h.2.1⟩

/-- Witness for C10 at a concrete input: an unterminated (and even invalid)
trailing line yields no entry and no error. -/
theorem splitString_spec_witness :
    SplitStringIntoLinesAndRemoveBlanksAndComments ("fun:a\n".toList ++ "junk".toList)
      = SplitStringIntoLinesAndRemoveBlanksAndComments "fun:a\n".toList
    ∧ ReadIgnoresFromString ("fun:a\n".toList ++ "junk".toList) ⟨[], [], []⟩
      = ReadIgnoresFromString "fun:a\n".toList ⟨[], [], []⟩ :=
  (splitString_spec "fun:a\n".toList).2 "junk".toList ⟨[], [], []⟩ (by decide)

end DRT
